import Mathlib

/-!
Verification of the distributed coordination layer of the task-management
backend: rate limiter (RateLimitService), connection manager with circuit
breaker (RedisConnectionService), concurrency admission controller
(ConcurrencyControlService), distributed lock (DistributedLockService),
consistent-hashing partitioning (ConsistentHashingStrategy /
RedisPartitioningService) and the dual-backend cache (CacheService).

Each service is shallowly embedded: its mutable fields become explicit
state records, `Date.now()` becomes an explicit `now : Nat` argument,
calls into the Redis backend become explicit `Except`-valued parameters
(an `Except.error` models the backend call throwing), and JavaScript
try/catch becomes a `match` on the `Except` value.  JavaScript numbers
that stay non-negative are modelled as `Nat`; quantities the code can
drive negative (`remaining`, `currentRunning`) are modelled as `Int`.
-/

/-! ## RateLimitService (src/unnamed/part_009) -/

namespace RateLimitSvc

/-- `RateLimitOptions` from src/config/rate-limit.config.ts: a window length
in milliseconds and a request limit. -/
structure RateLimitOptions where
  limit : Nat
  windowMs : Nat
deriving Repr, DecidableEq

/-- The `RateLimitResult` interface.  `retryAfter = none` models the field
being `undefined` (absent). `remaining` is `Int` because the code computes
`options.limit - 1` without clamping in the fresh-window branch. -/
structure RateLimitResult where
  allowed : Bool
  limit : Nat
  current : Nat
  remaining : Int
  resetTime : Nat
  retryAfter : Option Nat
deriving Repr, DecidableEq

/-- One entry of `inMemoryStore`. -/
structure MemWindow where
  count : Nat
  resetTime : Nat
  limit : Nat
deriving Repr, DecidableEq

/-- The in-memory store `Map<string, {count, resetTime, limit}>`,
as an association list with unique keys. -/
abbrev MemStore := List (String × MemWindow)

/-- `Map.get`. -/
def storeGet (s : MemStore) (k : String) : Option MemWindow :=
  match s.find? (fun p => p.1 == k) with
  | some p => some p.2
  | none => none

/-- `Map.set`: replace the binding if present, else append. -/
def storeSet (s : MemStore) (k : String) (w : MemWindow) : MemStore :=
  match s with
  | [] => [(k, w)]
  | (k0, w0) :: rest => if k0 == k then (k, w) :: rest else (k0, w0) :: storeSet rest k w

/-- `Math.ceil(d / 1000)` for a non-negative integer number of milliseconds. -/
def ceilDiv1000 (d : Nat) : Nat := (d + 999) / 1000

/-- `generateKey`: prepend the `rate_limit:` key prefix to
`key` or `key:identifier`. -/
def generateKey (key : String) (identifier : Option String) : String :=
  let baseKey := match identifier with
    | some id => key ++ ":" ++ id
    | none => key
  "rate_limit:" ++ baseKey

/-- `checkMemoryRateLimit`: fixed-window counter against the in-memory
store.  Returns the result and the updated store. -/
def checkMemoryRateLimit (store : MemStore) (key : String) (opts : RateLimitOptions)
    (now : Nat) : RateLimitResult × MemStore :=
  match storeGet store key with
  | none =>
    let w : MemWindow := ⟨1, now + opts.windowMs, opts.limit⟩
    (⟨true, opts.limit, 1, (opts.limit : Int) - 1, w.resetTime, none⟩, storeSet store key w)
  | some cur =>
    if now > cur.resetTime then
      let w : MemWindow := ⟨1, now + opts.windowMs, opts.limit⟩
      (⟨true, opts.limit, 1, (opts.limit : Int) - 1, w.resetTime, none⟩, storeSet store key w)
    else
      let count := cur.count + 1
      let allowed := decide (count ≤ opts.limit)
      let remaining := max 0 ((opts.limit : Int) - (count : Int))
      (⟨allowed, opts.limit, count, remaining, cur.resetTime,
         if allowed then none else some (ceilDiv1000 (cur.resetTime - now))⟩,
       storeSet store key { cur with count := count })

/-- The result object built by `checkRedisRateLimit` from the pipeline
replies `currentCount` (INCR) and `ttlResult` (TTL, in seconds). -/
def checkRedisRateLimit (opts : RateLimitOptions) (currentCount ttlResult now : Nat) :
    RateLimitResult :=
  let remaining := max 0 ((opts.limit : Int) - (currentCount : Int))
  let resetTime := now + ttlResult * 1000
  ⟨decide (currentCount ≤ opts.limit), opts.limit, currentCount, remaining, resetTime,
    if opts.limit < currentCount then some (ceilDiv1000 (resetTime - now)) else none⟩

/-- `checkRateLimit`: route to the distributed check when the connection
service is healthy and the breaker closed, otherwise to the memory check;
the surrounding try/catch falls back to the memory check when the
distributed path throws.  `dist` is the outcome of
`checkDistributedRedisRateLimit` (`Except.error` models it throwing);
the memory path is total, so the catch handler itself cannot throw. -/
def checkRateLimit (healthy cbOpen : Bool) (dist : Except Unit RateLimitResult)
    (store : MemStore) (key : String) (identifier : Option String)
    (opts : RateLimitOptions) (now : Nat) :
    Except Unit (RateLimitResult × MemStore) :=
  let fullKey := generateKey key identifier
  let body : Except Unit (RateLimitResult × MemStore) :=
    if healthy && !cbOpen then
      match dist with
      | Except.ok r => Except.ok (r, store)
      | Except.error e => Except.error e
    else
      Except.ok (checkMemoryRateLimit store fullKey opts now)
  match body with
  | Except.ok r => Except.ok r
  | Except.error _ => Except.ok (checkMemoryRateLimit store fullKey opts now)

end RateLimitSvc

/-! ## RedisConnectionService (src/src/common/services/redis-connection.service.ts) -/

namespace RedisConn

/-- The connection-manager state: `isConnected` (kept in lockstep with
`connectionHealth.isConnected` by the source), the circuit-breaker flag and
the consecutive-failure counter. -/
structure ConnState where
  isConnected : Bool
  cbOpen : Bool
  failures : Nat
deriving Repr, DecidableEq

def circuitBreakerThreshold : Nat := 5

def circuitBreakerTimeout : Nat := 30000

/-- `handleConnectionError`: drop connectivity, bump the failure counter,
and when the counter reaches the threshold open the breaker and schedule an
automatic reset.  The second component is the delay of the `setTimeout`
this call schedules, if any. -/
def handleConnectionError (s : ConnState) : ConnState × Option Nat :=
  let f := s.failures + 1
  if circuitBreakerThreshold ≤ f then
    (⟨false, true, f⟩, some circuitBreakerTimeout)
  else
    (⟨false, s.cbOpen, f⟩, none)

/-- The body of the `setTimeout` scheduled when the breaker opens: close the
breaker and zero the counter, touching nothing else. -/
def cooldownReset (s : ConnState) : ConnState :=
  { s with cbOpen := false, failures := 0 }

/-- `getConnection`: hard-reject with an error while the breaker is open,
otherwise hand back the live handle (modelled as `Unit`). -/
def getConnection (s : ConnState) : Except String Unit :=
  if s.cbOpen then Except.error "Redis circuit breaker is open" else Except.ok ()

def isHealthy (s : ConnState) : Bool := s.isConnected && !s.cbOpen

def isCircuitBreakerOpen (s : ConnState) : Bool := s.cbOpen

/-- `resetCircuitBreaker` (manual remediation). -/
def resetCircuitBreaker (s : ConnState) : ConnState :=
  { s with cbOpen := false, failures := 0 }

/-- The state `n` consecutive connection errors after a closed breaker with
zero failures and connectivity flag `c`. -/
def errN (c : Bool) : Nat → ConnState
  | 0 => ⟨c, false, 0⟩
  | n + 1 => (handleConnectionError (errN c n)).1

/-- The events that mutate the connection state: the ioredis lifecycle
events wired in `setupEventHandlers`, the periodic health check
(`performHealthCheck`, split into its success and failure outcomes), the
circuit-breaker cooldown timer and the manual reset. -/
inductive ConnEvent
  | connect
  | ready
  | errorEvt
  | close
  | healthOk
  | healthFail
  | cooldown
  | manualReset
deriving Repr, DecidableEq

/-- One state transition per event, read off the corresponding handler. -/
def connStep (s : ConnState) (e : ConnEvent) : ConnState :=
  match e with
  | ConnEvent.connect => ⟨true, false, 0⟩
  | ConnEvent.ready => { s with isConnected := true }
  | ConnEvent.errorEvt => (handleConnectionError s).1
  | ConnEvent.close => { s with isConnected := false }
  | ConnEvent.healthOk => if s.cbOpen then s else { s with isConnected := true, failures := 0 }
  | ConnEvent.healthFail => if s.cbOpen then s else (handleConnectionError s).1
  | ConnEvent.cooldown => cooldownReset s
  | ConnEvent.manualReset => resetCircuitBreaker s

def connRun (s : ConnState) (es : List ConnEvent) : ConnState :=
  es.foldl connStep s

/-- The claimed invariant: an open breaker never coexists with
`isConnected = true`. -/
def cbInv (s : ConnState) : Bool := !s.cbOpen || !s.isConnected

/-- No `ready` event is delivered while the breaker is open, along the
trace of `es` from `s`. -/
def noReadyWhileOpen (s : ConnState) : List ConnEvent → Bool
  | [] => true
  | e :: es => (!(e == ConnEvent.ready) || !s.cbOpen) && noReadyWhileOpen (connStep s e) es

end RedisConn

/-! ## ConcurrencyControlService (src/unnamed/part_006) -/

namespace Concurrency

/-- One entry of `limits`: the per-job-type model.  `currentRunning` is
`Int` because the JavaScript counter is decremented unconditionally by each
`release()` call.  The queue holds waiter identities in arrival order. -/
structure SlotState where
  maxConcurrent : Nat
  currentRunning : Int
  queue : List Nat
deriving Repr, DecidableEq

/-- `acquireSlot` (configured job type): grant a slot immediately when
below the limit, else append the continuation to the queue.  The second
component lists the waiters granted a slot by this call. -/
def acquireSlot (s : SlotState) (w : Nat) : SlotState × List Nat :=
  if s.currentRunning < (s.maxConcurrent : Int) then
    ({ s with currentRunning := s.currentRunning + 1 }, [w])
  else
    ({ s with queue := s.queue ++ [w] }, [])

/-- `processQueue`: when the queue is non-empty and a slot is free, shift
the head continuation and run it (it increments the counter and resolves
its waiter). -/
def processQueue (s : SlotState) : SlotState × List Nat :=
  match s.queue with
  | [] => (s, [])
  | w :: rest =>
    if s.currentRunning < (s.maxConcurrent : Int) then
      ({ s with currentRunning := s.currentRunning + 1, queue := rest }, [w])
    else (s, [])

/-- The `release` closure returned by `acquireSlot`: decrement the counter,
then `processQueue`. -/
def releaseSlot (s : SlotState) : SlotState × List Nat :=
  processQueue { s with currentRunning := s.currentRunning - 1 }

inductive SlotEvent
  | acquire (w : Nat)
  | release
deriving Repr, DecidableEq

def stepSlot (s : SlotState) : SlotEvent → SlotState × List Nat
  | SlotEvent.acquire w => acquireSlot s w
  | SlotEvent.release => releaseSlot s

/-- A run of the controller together with two ghost logs: `enq` records, in
order, the waiters that were queued (acquire arrived with no free slot);
`dq` records, in order, the queued waiters later granted a slot. -/
structure Trace where
  st : SlotState
  enq : List Nat
  dq : List Nat
deriving Repr, DecidableEq

def stepTrace (t : Trace) : SlotEvent → Trace
  | SlotEvent.acquire w =>
    if t.st.currentRunning < (t.st.maxConcurrent : Int) then
      { t with st := (acquireSlot t.st w).1 }
    else
      { st := (acquireSlot t.st w).1, enq := t.enq ++ [w], dq := t.dq }
  | SlotEvent.release =>
    { st := (releaseSlot t.st).1, enq := t.enq, dq := t.dq ++ (releaseSlot t.st).2 }

def runTrace (t : Trace) (es : List SlotEvent) : Trace :=
  es.foldl stepTrace t

/-- The controller state for a job type as configured at startup:
`maxConcurrent = m`, nothing running, empty queue. -/
def initTrace (m : Nat) : Trace :=
  ⟨⟨m, 0, []⟩, [], []⟩

/-- The run invariant: the configured limit is `m`, the counter never
exceeds it, and the waiters queued so far are exactly the queue-granted
waiters followed by the still-queued ones, in order (strict FIFO). -/
def traceInv (m : Nat) (t : Trace) : Prop :=
  t.st.maxConcurrent = m ∧ t.st.currentRunning ≤ (m : Int)
    ∧ t.enq = t.dq ++ t.st.queue

instance (m : Nat) (t : Trace) : Decidable (traceInv m t) := by
  unfold traceInv; infer_instance

end Concurrency

/-! ## DistributedLockService (src/src/common/services/distributed-lock.service.ts) -/

namespace DistLock

/-- The slice of the Redis keyspace used by the lock service: lock key to
stored token. -/
abbrev LockStore := List (String × String)

def lockGet (st : LockStore) (k : String) : Option String :=
  match st.find? (fun p => p.1 == k) with
  | some p => some p.2
  | none => none

/-- `DEL key` removes every binding of the key. -/
def lockDel (st : LockStore) (k : String) : LockStore :=
  st.filter (fun p => !(p.1 == k))

/-- The `taskflow:lock:` key prefixing in `acquireLock`/`releaseLock`. -/
def lockKey (resource : String) : String := "taskflow:lock:" ++ resource

/-- `SET key token PX ttl NX`: set only if absent; `true` means the reply
was OK.  (The TTL only matters for expiry, which is modelled as the key
simply being absent later.) -/
def setNX (st : LockStore) (k v : String) : Bool × LockStore :=
  match lockGet st k with
  | some _ => (false, st)
  | none => (true, (k, v) :: st)

/-- The server-side Lua script of `releaseLock`: compare the stored value
with the token and delete on match; the reply is the number of keys
deleted. -/
def evalReleaseScript (st : LockStore) (k tok : String) : Nat × LockStore :=
  match lockGet st k with
  | some v => if v = tok then (1, lockDel st k) else (0, st)
  | none => (0, st)

/-- `acquireLock`: try the atomic set-if-absent; a thrown backend call
(`fail = true`) is caught and surfaces as `none`.  `tok` stands for the
randomly generated token. -/
def acquireLock (st : LockStore) (resource tok : String) (fail : Bool) :
    Option String × LockStore :=
  let backend : Except Unit (Bool × LockStore) :=
    if fail then Except.error () else Except.ok (setNX st (lockKey resource) tok)
  match backend with
  | Except.error _ => (none, st)
  | Except.ok (ok, st2) => (if ok then some tok else none, st2)

/-- `releaseLock`: run the compare-and-delete script; a thrown backend call
(`fail = true`) is caught and surfaces as `false`. -/
def releaseLock (st : LockStore) (resource tok : String) (fail : Bool) :
    Bool × LockStore :=
  let backend : Except Unit (Nat × LockStore) :=
    if fail then Except.error () else Except.ok (evalReleaseScript st (lockKey resource) tok)
  match backend with
  | Except.error _ => (false, st)
  | Except.ok (res, st2) => (res == 1, st2)

end DistLock

/-! ## ConsistentHashingStrategy and RedisPartitioningService (src/unnamed/part_008)

The 32-bit MD5-based digest is abstracted as a parameter `h : String → Nat`:
the source's own comment only requires determinism, which any Lean function
has. -/

namespace Hashing

structure RingEntry where
  hash : Nat
  node : String
deriving Repr, DecidableEq

def virtualNodes : Nat := 160

/-- The comparator `(a, b) => a.hash - b.hash` (ascending by hash). -/
def ringLE (a b : RingEntry) : Bool := decide (a.hash ≤ b.hash)

/-- The virtual points placed by `buildRing` before sorting: for every node,
one entry at `hash(node + ":" + i)` for each `i` in `[0, virtualNodes)`. -/
def ringPoints (h : String → Nat) (nodes : List String) : List RingEntry :=
  nodes.flatMap (fun node =>
    (List.range virtualNodes).map (fun i => ⟨h (node ++ ":" ++ toString i), node⟩))

/-- `buildRing`: place the virtual points and sort ascending by hash
(JavaScript `Array.sort` is stable, as is `mergeSort`). -/
def buildRing (h : String → Nat) (nodes : List String) : List RingEntry :=
  (ringPoints h nodes).mergeSort ringLE

/-- The lookup loop shared by `getNodeForKey` and `getNodeForPartition`:
return the first ring entry whose hash is at least the target. -/
def scanRing (target : Nat) : List RingEntry → Option RingEntry
  | [] => none
  | e :: rest => if target ≤ e.hash then some e else scanRing target rest

/-- The tail of both lookups: scan, then wrap around to `ring[0]`.  On an
empty ring `ring[0]` is `undefined` and `.node` raises a TypeError; this is
modelled as `none` (`some` is a normal return). -/
def getNodeForRing (ring : List RingEntry) (target : Nat) : Option String :=
  match scanRing target ring with
  | some e => some e.node
  | none => ring.head?.map (fun e => e.node)

/-- `getNodeForKey` over the ring built from `nodes`. -/
def getNodeForKey (h : String → Nat) (nodes : List String) (key : String) : Option String :=
  getNodeForRing (buildRing h nodes) (h key)

/-- `getPartition`: modulo-hash bucketing. -/
def getPartition (h : String → Nat) (key : String) (totalPartitions : Nat) : Nat :=
  h key % totalPartitions

/-- `getNodeForPartition`: ring lookup at `hash("partition:" + p)`. -/
def getNodeForPartition (h : String → Nat) (nodes : List String) (p : Nat) : Option String :=
  getNodeForRing (buildRing h nodes) (h ("partition:" ++ toString p))

/-- `distributeKeys`, flattened to per-key lookups.  A `none` entry means the
underlying `getNodeForKey` call failed (empty ring). -/
def distributeLookup (h : String → Nat) (nodes : List String) (keys : List String) :
    List (String × Option String) :=
  keys.map (fun k => (k, getNodeForKey h nodes k))

/-- `RedisPartitioningService.rebalanceKeys`: install a fresh
`ConsistentHashingStrategy` over `newNodes` (returned as the new node list)
and redistribute the given keys over it. -/
def rebalanceKeys (h : String → Nat) (keys : List String) (newNodes : List String) :
    List String × List (String × Option String) :=
  (newNodes, distributeLookup h newNodes keys)

end Hashing

/-! ## CacheService (src/src/common/services/cache.service.ts) -/

namespace CacheSvc

/-- A `CacheItem` of the local map (`value` is the opaque stored value). -/
structure Item where
  value : String
  expiresAt : Nat
deriving Repr, DecidableEq

/-- The process-local `Map<string, CacheItem>`. -/
abbrev Mem := List (String × Item)

def memGet (m : Mem) (k : String) : Option Item :=
  match m.find? (fun p => p.1 == k) with
  | some p => some p.2
  | none => none

def memSet (m : Mem) (k : String) (it : Item) : Mem :=
  match m with
  | [] => [(k, it)]
  | (k0, it0) :: rest => if k0 == k then (k, it) :: rest else (k0, it0) :: memSet rest k it

/-- `Map.delete`: whether the key was present, and the map without it. -/
def memDelete (m : Mem) (k : String) : Bool × Mem :=
  (m.any (fun p => p.1 == k), m.filter (fun p => !(p.1 == k)))

/-- The character sanitization in `getPrefixedKey`: any character outside
`[a-zA-Z0-9:_-]` becomes an underscore. -/
def sanitizeKey (key : String) : String :=
  String.mk (key.data.map (fun c =>
    if c.isAlphanum || c == ':' || c == '_' || c == '-' then c else '_'))

/-- `getPrefixedKey`: reject a falsy key (the empty string; a non-string
value is not expressible in the typed embedding) with the hard
`Invalid cache key` error, else sanitize and prepend `taskflow:cache:`. -/
def getPrefixedKey (key : String) : Except String String :=
  if key = "" then Except.error "Invalid cache key"
  else Except.ok ("taskflow:cache:" ++ sanitizeKey key)

/-- `getMemory`: read the local map, deleting (and missing) an expired
entry. -/
def getMemory (m : Mem) (now : Nat) (k : String) : Option String × Mem :=
  match memGet m k with
  | none => (none, m)
  | some it =>
    if it.expiresAt < now then (none, (memDelete m k).2) else (some it.value, m)

inductive Backend
  | redis
  | memory
deriving Repr, DecidableEq

/-- The cache-service state relevant here: the `isRedisAvailable` flag
(written once, in `onModuleInit`) and the local map. -/
structure CacheState where
  isRedisAvailable : Bool
  mem : Mem
deriving Repr, DecidableEq

/-- The backend `CacheService.get` consults, read off its branch condition:
it tests only the startup flag `isRedisAvailable`. -/
def cacheGetBackend (st : CacheState) : Backend :=
  if st.isRedisAvailable then Backend.redis else Backend.memory

/-- Modelled from the spec for refinement comparison (backend selection
policy): prefer the distributed backend exactly when the connection manager
reports healthy at the moment of the call. -/
def backendSpecChoice (healthyNow : Bool) : Backend :=
  if healthyNow then Backend.redis else Backend.memory

/-- `CacheService.get`: prefix the key, route by `isRedisAvailable`, and
catch every failure as `null` with the state unchanged.  `redisGet` is the
backend read (`Except.error` models it throwing). -/
def cacheGet (st : CacheState) (redisGet : String → Except String (Option String))
    (now : Nat) (key : String) : Except String (Option String × CacheState) :=
  let body : Except String (Option String × CacheState) :=
    match getPrefixedKey key with
    | Except.error e => Except.error e
    | Except.ok pk =>
      if st.isRedisAvailable then
        match redisGet pk with
        | Except.error e => Except.error e
        | Except.ok v => Except.ok (v, st)
      else
        let (v, m2) := getMemory st.mem now pk
        Except.ok (v, { st with mem := m2 })
  match body with
  | Except.ok r => Except.ok r
  | Except.error _ => Except.ok (none, st)

/-- `CacheService.set`: route by `isRedisAvailable && !circuitBreakerOpen`;
on failure, re-prefix the key and write through to the local map when
`isRedisAvailable` — where a malformed key throws a second time, out of the
catch block.  `redisSet` is the backend write for the prefixed key. -/
def cacheSet (st : CacheState) (cbOpen : Bool) (redisSet : String → Except String Unit)
    (now ttlSeconds : Nat) (key value : String) : Except String CacheState :=
  let body : Except String CacheState :=
    match getPrefixedKey key with
    | Except.error e => Except.error e
    | Except.ok pk =>
      if st.isRedisAvailable && !cbOpen then
        match redisSet pk with
        | Except.error e => Except.error e
        | Except.ok _ => Except.ok st
      else
        Except.ok { st with mem := memSet st.mem pk ⟨value, now + ttlSeconds * 1000⟩ }
  match body with
  | Except.ok st2 => Except.ok st2
  | Except.error _ =>
    if st.isRedisAvailable then
      match getPrefixedKey key with
      | Except.error e => Except.error e
      | Except.ok pk =>
        Except.ok { st with mem := memSet st.mem pk ⟨value, now + ttlSeconds * 1000⟩ }
    else
      Except.ok st

/-- `CacheService.delete`: route by `isRedisAvailable`, catching every
failure as `false`. -/
def cacheDelete (st : CacheState) (redisDel : String → Except String Bool)
    (key : String) : Except String (Bool × CacheState) :=
  let body : Except String (Bool × CacheState) :=
    match getPrefixedKey key with
    | Except.error e => Except.error e
    | Except.ok pk =>
      if st.isRedisAvailable then
        match redisDel pk with
        | Except.error e => Except.error e
        | Except.ok b => Except.ok (b, st)
      else
        Except.ok ((memDelete st.mem pk).1, { st with mem := (memDelete st.mem pk).2 })
  match body with
  | Except.ok r => Except.ok r
  | Except.error _ => Except.ok (false, st)

/-- The memory branch of `mget`: one `getMemory` per prefixed key, threading
the lazy-expiry deletions through the map. -/
def getMemoryList (m : Mem) (now : Nat) : List String → List (Option String) × Mem
  | [] => ([], m)
  | k :: ks =>
    let (v, m2) := getMemory m now k
    let (vs, m3) := getMemoryList m2 now ks
    (v :: vs, m3)

/-- `keys.map(key => this.getPrefixedKey(key))`: prefix every key, throwing
at the first malformed one. -/
def prefixAll : List String → Except String (List String)
  | [] => Except.ok []
  | k :: ks =>
    match getPrefixedKey k with
    | Except.error e => Except.error e
    | Except.ok pk =>
      match prefixAll ks with
      | Except.error e => Except.error e
      | Except.ok pks => Except.ok (pk :: pks)

/-- `CacheService.mget`: prefix all keys first (throwing on the first
malformed one), route by `isRedisAvailable`, and catch every failure as an
all-`null` list. -/
def cacheMget (st : CacheState)
    (redisMget : List String → Except String (List (Option String)))
    (now : Nat) (keys : List String) : Except String (List (Option String) × CacheState) :=
  let body : Except String (List (Option String) × CacheState) :=
    match prefixAll keys with
    | Except.error e => Except.error e
    | Except.ok pks =>
      if st.isRedisAvailable then
        match redisMget pks with
        | Except.error e => Except.error e
        | Except.ok vs => Except.ok (vs, st)
      else
        let (vs, m2) := getMemoryList st.mem now pks
        Except.ok (vs, { st with mem := m2 })
  match body with
  | Except.ok r => Except.ok r
  | Except.error _ => Except.ok (keys.map (fun _ => none), st)

/-- The memory branch of `mset`: prefix each key (throwing on a malformed
one) and write it. -/
def setMemoryList (m : Mem) (expiresAt : Nat) : List (String × String) → Except String Mem
  | [] => Except.ok m
  | (k, v) :: rest =>
    match getPrefixedKey k with
    | Except.error e => Except.error e
    | Except.ok pk => setMemoryList (memSet m pk ⟨v, expiresAt⟩) expiresAt rest

/-- `CacheService.mset`: the Redis branch hands the *raw* keys to the
pipeline (`msetRedis` never prefixes), the memory branch prefixes each key;
every failure is caught and swallowed. -/
def cacheMset (st : CacheState)
    (redisMset : List (String × String) → Except String Unit)
    (now ttlSeconds : Nat) (kvs : List (String × String)) : Except String CacheState :=
  let body : Except String CacheState :=
    if st.isRedisAvailable then
      match redisMset kvs with
      | Except.error e => Except.error e
      | Except.ok _ => Except.ok st
    else
      match setMemoryList st.mem (now + ttlSeconds * 1000) kvs with
      | Except.error e => Except.error e
      | Except.ok m2 => Except.ok { st with mem := m2 }
  match body with
  | Except.ok st2 => Except.ok st2
  | Except.error _ => Except.ok st

end CacheSvc

namespace RateLimitSvc

/-- Six consecutive memory-path checks of the same key with `limit = 5`,
`windowMs = 1000`, at times `t1 .. t6`, threading the store through;
the list collects the six returned results in order. -/
def sixCalls (store : MemStore) (key : String) (t1 t2 t3 t4 t5 t6 : Nat) :
    List RateLimitResult :=
  let o : RateLimitOptions := ⟨5, 1000⟩
  let c1 := checkMemoryRateLimit store key o t1
  let c2 := checkMemoryRateLimit c1.2 key o t2
  let c3 := checkMemoryRateLimit c2.2 key o t3
  let c4 := checkMemoryRateLimit c3.2 key o t4
  let c5 := checkMemoryRateLimit c4.2 key o t5
  let c6 := checkMemoryRateLimit c5.2 key o t6
  [c1.1, c2.1, c3.1, c4.1, c5.1, c6.1]

end RateLimitSvc

/-! ## Supporting lemmas -/

namespace RateLimitSvc

theorem storeGet_storeSet_self (s : MemStore) (k : String) (w : MemWindow) :
    storeGet (storeSet s k w) k = some w := by
  induction s with
  | nil => simp [storeSet, storeGet]
  | cons p rest ih =>
    by_cases h : p.1 == k
    · simp [storeSet, storeGet, h]
    · simp only [storeSet, h]
      simpa [storeGet, List.find?, h] using ih

/-- The in-window branch of `checkMemoryRateLimit`, in closed form. -/
theorem checkMemory_hit (store : MemStore) (key : String) (opts : RateLimitOptions)
    (now : Nat) (cur : MemWindow) (hget : storeGet store key = some cur)
    (hin : ¬ now > cur.resetTime) :
    checkMemoryRateLimit store key opts now
      = (⟨decide (cur.count + 1 ≤ opts.limit), opts.limit, cur.count + 1,
          max 0 ((opts.limit : Int) - ((cur.count + 1 : Nat) : Int)), cur.resetTime,
          if decide (cur.count + 1 ≤ opts.limit) then none
          else some (ceilDiv1000 (cur.resetTime - now))⟩,
        storeSet store key { cur with count := cur.count + 1 }) := by
  simp [checkMemoryRateLimit, hget, hin]

/-- The fresh-window branch of `checkMemoryRateLimit`, in closed form. -/
theorem checkMemory_fresh (store : MemStore) (key : String) (opts : RateLimitOptions)
    (now : Nat) (hget : storeGet store key = none) :
    checkMemoryRateLimit store key opts now
      = (⟨true, opts.limit, 1, (opts.limit : Int) - 1, now + opts.windowMs, none⟩,
        storeSet store key ⟨1, now + opts.windowMs, opts.limit⟩) := by
  simp [checkMemoryRateLimit, hget]

/-- Re-setting the same key overwrites the earlier binding. -/
theorem storeSet_storeSet (s : MemStore) (k : String) (w w2 : MemWindow) :
    storeSet (storeSet s k w) k w2 = storeSet s k w2 := by
  induction s with
  | nil => simp [storeSet]
  | cons p rest ih =>
    by_cases h : p.1 == k
    · simp [storeSet, h]
    · simp [storeSet, h, ih]

end RateLimitSvc

/-! ## Claim theorems -/

/-- C1 (counterexample).  The claim says a throwing distributed check always
yields `allowed = true`.  With `limit = 1`, a first fallback call having
created an in-memory window, a second check whose distributed path throws
falls back to the in-memory counter and returns `allowed = false`. -/
theorem C1_fail_open_cex :
    (RateLimitSvc.checkRateLimit true false (Except.error ())
        (RateLimitSvc.checkMemoryRateLimit []
          (RateLimitSvc.generateKey "route" (some "ip")) ⟨1, 1000⟩ 0).2
        "route" (some "ip") ⟨1, 1000⟩ 1).toOption.map (fun p => p.1.allowed)
      = some false := by
  decide

/-- C1 (amended).  When the distributed rate-limit computation throws,
`checkRateLimit` never propagates the exception: it returns exactly the
in-memory fallback result for the same key.  That fallback result has
`allowed = true` whenever the key has no live in-memory window (absent or
expired), but is not unconditionally `allowed = true`. -/
theorem C1_fail_open (healthy cbOpen : Bool) (store : RateLimitSvc.MemStore)
    (key : String) (identifier : Option String) (opts : RateLimitSvc.RateLimitOptions)
    (now : Nat)
    (hfresh : ∀ cur, RateLimitSvc.storeGet store (RateLimitSvc.generateKey key identifier)
      = some cur → cur.resetTime < now) :
    RateLimitSvc.checkRateLimit healthy cbOpen (Except.error ()) store key identifier opts now
      = Except.ok (RateLimitSvc.checkMemoryRateLimit store
          (RateLimitSvc.generateKey key identifier) opts now) ∧
    (RateLimitSvc.checkMemoryRateLimit store
        (RateLimitSvc.generateKey key identifier) opts now).1.allowed = true := by
  constructor
  · cases healthy <;> cases cbOpen <;> simp [RateLimitSvc.checkRateLimit]
  · cases hget : RateLimitSvc.storeGet store (RateLimitSvc.generateKey key identifier) with
    | none => simp [RateLimitSvc.checkMemoryRateLimit, hget]
    | some cur =>
      have hlt := hfresh cur hget
      simp [RateLimitSvc.checkMemoryRateLimit, hget, hlt]

/-- C1 (witness): concrete instance of `C1_fail_open` on an empty store. -/
theorem C1_fail_open_witness :
    RateLimitSvc.checkRateLimit true false (Except.error ()) [] "route" none ⟨5, 1000⟩ 0
      = Except.ok (RateLimitSvc.checkMemoryRateLimit []
          (RateLimitSvc.generateKey "route" none) ⟨5, 1000⟩ 0) ∧
    (RateLimitSvc.checkMemoryRateLimit []
        (RateLimitSvc.generateKey "route" none) ⟨5, 1000⟩ 0).1.allowed = true :=
  C1_fail_open true false [] "route" none ⟨5, 1000⟩ 0
    (by intro cur h; simp [RateLimitSvc.storeGet] at h)

/-- C2.  From a closed breaker with zero failures: every connection error
increments the failure counter; fewer than five errors leave the breaker
closed, the fifth opens it and schedules the automatic reset with delay
30000 ms; `getConnection` on any open-breaker state signals the
circuit-open error; and the scheduled reset closes the breaker and zeroes
the counter while leaving the connectivity flag untouched, whatever it is. -/
theorem C2_circuit_breaker (s : RedisConn.ConnState) (c : Bool) (k : Nat) (hk : k < 5) :
    (RedisConn.handleConnectionError s).1.failures = s.failures + 1 ∧
    (RedisConn.errN c k).cbOpen = false ∧
    (RedisConn.errN c 5).cbOpen = true ∧
    (RedisConn.handleConnectionError (RedisConn.errN c 4)).2
      = some RedisConn.circuitBreakerTimeout ∧
    RedisConn.circuitBreakerTimeout = 30000 ∧
    (∀ t : RedisConn.ConnState, t.cbOpen = true →
      RedisConn.getConnection t = Except.error "Redis circuit breaker is open") ∧
    (∀ t : RedisConn.ConnState, (RedisConn.cooldownReset t).cbOpen = false ∧
      (RedisConn.cooldownReset t).failures = 0 ∧
      (RedisConn.cooldownReset t).isConnected = t.isConnected) := by
  refine ⟨?_, ?_, ?_, ?_, rfl, ?_, ?_⟩
  · simp only [RedisConn.handleConnectionError]
    split <;> rfl
  · interval_cases k <;> cases c <;> decide
  · cases c <;> decide
  · cases c <;> decide
  · intro t ht
    simp [RedisConn.getConnection, ht]
  · intro t
    simp [RedisConn.cooldownReset]

/-- C2 (witness): concrete instance of `C2_circuit_breaker` at `k = 3`,
with the quantified conjuncts instantiated at the open state
`⟨false, true, 7⟩` and the still-connected open state `⟨true, true, 7⟩`. -/
theorem C2_circuit_breaker_witness :
    (RedisConn.handleConnectionError ⟨true, false, 0⟩).1.failures = 0 + 1 ∧
    (RedisConn.errN true 3).cbOpen = false ∧
    (RedisConn.errN true 5).cbOpen = true ∧
    (RedisConn.handleConnectionError (RedisConn.errN true 4)).2
      = some RedisConn.circuitBreakerTimeout ∧
    RedisConn.getConnection ⟨false, true, 7⟩
      = Except.error "Redis circuit breaker is open" ∧
    (RedisConn.cooldownReset ⟨true, true, 7⟩).cbOpen = false ∧
    (RedisConn.cooldownReset ⟨true, true, 7⟩).isConnected = true := by
  have h := C2_circuit_breaker ⟨true, false, 0⟩ true 3 (by decide)
  exact ⟨h.1, h.2.1, h.2.2.1, h.2.2.2.1, h.2.2.2.2.2.1 ⟨false, true, 7⟩ rfl,
    (h.2.2.2.2.2.2 ⟨true, true, 7⟩).1, (h.2.2.2.2.2.2 ⟨true, true, 7⟩).2.2⟩

namespace RedisConn

/-- Every event except a `ready` delivered on an open breaker preserves the
breaker/connectivity invariant. -/
theorem connStep_preserves_cbInv (s : ConnState) (e : ConnEvent)
    (hinv : cbInv s = true) (hr : e = ConnEvent.ready → s.cbOpen = false) :
    cbInv (connStep s e) = true := by
  cases e with
  | connect => simp [connStep, cbInv]
  | ready =>
    simp [connStep, cbInv, hr rfl]
  | errorEvt =>
    simp only [connStep, handleConnectionError]
    split <;> simp [cbInv]
  | close => simp [connStep, cbInv]
  | healthOk =>
    cases hb : s.cbOpen with
    | true => simpa [connStep, hb] using hinv
    | false => simp [connStep, hb, cbInv]
  | healthFail =>
    cases hb : s.cbOpen with
    | true => simpa [connStep, hb] using hinv
    | false =>
      simp only [connStep, hb, Bool.false_eq_true, if_false, handleConnectionError]
      split <;> simp [cbInv]
  | cooldown => simp [connStep, cooldownReset, cbInv]
  | manualReset => simp [connStep, resetCircuitBreaker, cbInv]

end RedisConn

/-- C8 (counterexample).  Five consecutive connection errors open the
breaker; a `ready` event then sets `isConnected = true` without closing it,
so the claimed invariant fails on this event sequence. -/
theorem C8_breaker_invariant_cex :
    (RedisConn.connRun ⟨false, false, 0⟩
        [RedisConn.ConnEvent.errorEvt, RedisConn.ConnEvent.errorEvt,
          RedisConn.ConnEvent.errorEvt, RedisConn.ConnEvent.errorEvt,
          RedisConn.ConnEvent.errorEvt, RedisConn.ConnEvent.ready]).cbOpen = true ∧
    (RedisConn.connRun ⟨false, false, 0⟩
        [RedisConn.ConnEvent.errorEvt, RedisConn.ConnEvent.errorEvt,
          RedisConn.ConnEvent.errorEvt, RedisConn.ConnEvent.errorEvt,
          RedisConn.ConnEvent.errorEvt, RedisConn.ConnEvent.ready]).isConnected = true := by
  constructor <;> decide

/-- C8 (amended).  Starting from any state satisfying the invariant
(open breaker implies not connected), the invariant holds after any
sequence of connect / ready / error / close events, health checks, cooldown
resets and manual resets, provided no `ready` event is delivered while the
breaker is open; a `ready` on an open breaker is the one transition among
these that violates it. -/
theorem C8_breaker_invariant (s : RedisConn.ConnState) (es : List RedisConn.ConnEvent)
    (hinv : RedisConn.cbInv s = true)
    (hready : RedisConn.noReadyWhileOpen s es = true) :
    RedisConn.cbInv (RedisConn.connRun s es) = true := by
  induction es generalizing s with
  | nil => simpa [RedisConn.connRun] using hinv
  | cons e es ih =>
    simp only [RedisConn.noReadyWhileOpen, Bool.and_eq_true, Bool.or_eq_true] at hready
    have hstep : RedisConn.cbInv (RedisConn.connStep s e) = true := by
      apply RedisConn.connStep_preserves_cbInv s e hinv
      intro he
      rcases hready.1 with h | h
      · subst he; simp at h
      · simpa using h
    have : RedisConn.connRun s (e :: es) = RedisConn.connRun (RedisConn.connStep s e) es := by
      simp [RedisConn.connRun]
    rw [this]
    exact ih (RedisConn.connStep s e) hstep hready.2

namespace Concurrency

/-- Every acquire or release step preserves the run invariant. -/
theorem stepTrace_preserves_traceInv (m : Nat) (t : Trace) (e : SlotEvent)
    (h : traceInv m t) : traceInv m (stepTrace t e) := by
  obtain ⟨⟨mx, run, qu⟩, enq, dq⟩ := t
  obtain ⟨hm, hle, hq⟩ := h
  simp only at hm hle hq
  subst hm
  subst hq
  cases e with
  | acquire w =>
    by_cases hfree : run < (mx : Int)
    · have hs : stepTrace ⟨⟨mx, run, qu⟩, dq ++ qu, dq⟩ (SlotEvent.acquire w)
          = ⟨⟨mx, run + 1, qu⟩, dq ++ qu, dq⟩ := by
        simp [stepTrace, acquireSlot, hfree]
      rw [hs]
      exact ⟨rfl, show run + 1 ≤ (mx : Int) by omega, rfl⟩
    · have hs : stepTrace ⟨⟨mx, run, qu⟩, dq ++ qu, dq⟩ (SlotEvent.acquire w)
          = ⟨⟨mx, run, qu ++ [w]⟩, (dq ++ qu) ++ [w], dq⟩ := by
        simp [stepTrace, acquireSlot, hfree]
      rw [hs]
      exact ⟨rfl, hle, by simp⟩
  | release =>
    cases qu with
    | nil =>
      have hs : stepTrace ⟨⟨mx, run, []⟩, dq ++ [], dq⟩ SlotEvent.release
          = ⟨⟨mx, run - 1, []⟩, dq, dq⟩ := by
        simp [stepTrace, releaseSlot, processQueue]
      rw [hs]
      exact ⟨rfl, show run - 1 ≤ (mx : Int) by omega, by simp⟩
    | cons w rest =>
      by_cases hfree : run - 1 < (mx : Int)
      · have hs : stepTrace ⟨⟨mx, run, w :: rest⟩, dq ++ w :: rest, dq⟩ SlotEvent.release
            = ⟨⟨mx, run, rest⟩, dq ++ w :: rest, dq ++ [w]⟩ := by
          simp [stepTrace, releaseSlot, processQueue, hfree]
        rw [hs]
        exact ⟨rfl, hle, by simp⟩
      · have hs : stepTrace ⟨⟨mx, run, w :: rest⟩, dq ++ w :: rest, dq⟩ SlotEvent.release
            = ⟨⟨mx, run - 1, w :: rest⟩, dq ++ w :: rest, dq⟩ := by
          simp [stepTrace, releaseSlot, processQueue, hfree]
        rw [hs]
        exact ⟨rfl, by omega, rfl⟩

/-- The run invariant holds along any event trace. -/
theorem runTrace_preserves_traceInv (m : Nat) (t : Trace) (es : List SlotEvent)
    (h : traceInv m t) : traceInv m (runTrace t es) := by
  induction es generalizing t with
  | nil => simpa [runTrace] using h
  | cons e es ih =>
    have : runTrace t (e :: es) = runTrace (stepTrace t e) es := by
      simp [runTrace]
    rw [this]
    exact ih (stepTrace t e) (stepTrace_preserves_traceInv m t e h)

end Concurrency

/-- C3.  Under any sequence of `acquireSlot` and `release` operations for a
job type configured with `maxConcurrent = m` (and left unchanged):
`currentRunning` never exceeds `m` at any point of the run (any `take k`
prefix); the waiters queued so far are exactly the queue-granted waiters
followed by the still-queued ones, in order (strict FIFO); an acquire
arriving with the limit reached grants nothing and appends the caller to
the queue; and an acquire step never grants a queued waiter — only a
release does. -/
theorem C3_concurrency_bound (m k w : Nat) (es : List Concurrency.SlotEvent)
    (s : Concurrency.SlotState) (t : Concurrency.Trace)
    (hfull : (s.maxConcurrent : Int) ≤ s.currentRunning) :
    (Concurrency.runTrace (Concurrency.initTrace m) (es.take k)).st.currentRunning
        ≤ (m : Int) ∧
    (Concurrency.runTrace (Concurrency.initTrace m) (es.take k)).st.maxConcurrent = m ∧
    (Concurrency.runTrace (Concurrency.initTrace m) (es.take k)).enq
      = (Concurrency.runTrace (Concurrency.initTrace m) (es.take k)).dq
        ++ (Concurrency.runTrace (Concurrency.initTrace m) (es.take k)).st.queue ∧
    Concurrency.acquireSlot s w = ({ s with queue := s.queue ++ [w] }, []) ∧
    (Concurrency.stepTrace t (Concurrency.SlotEvent.acquire w)).dq = t.dq := by
  have hinv : Concurrency.traceInv m (Concurrency.runTrace (Concurrency.initTrace m)
      (es.take k)) :=
    Concurrency.runTrace_preserves_traceInv m _ _ (by simp [Concurrency.traceInv,
      Concurrency.initTrace])
  obtain ⟨hm, hle, hq⟩ := hinv
  refine ⟨hle, hm, hq, ?_, ?_⟩
  · have : ¬ s.currentRunning < (s.maxConcurrent : Int) := by omega
    simp [Concurrency.acquireSlot, this]
  · by_cases hfree : t.st.currentRunning < (t.st.maxConcurrent : Int) <;>
      simp [Concurrency.stepTrace, hfree]

/-- C3 (witness): concrete instance of `C3_concurrency_bound` with
`maxConcurrent = 2`, three acquires and one release, and a full slot
state. -/
theorem C3_concurrency_bound_witness :
    (Concurrency.runTrace (Concurrency.initTrace 2)
        ([Concurrency.SlotEvent.acquire 1, Concurrency.SlotEvent.acquire 2,
          Concurrency.SlotEvent.acquire 3, Concurrency.SlotEvent.release].take 4)).st.currentRunning
        ≤ (2 : Int) ∧
    Concurrency.acquireSlot ⟨2, 2, []⟩ 7 = (⟨2, 2, [7]⟩, []) ∧
    (Concurrency.stepTrace (Concurrency.initTrace 2) (Concurrency.SlotEvent.acquire 7)).dq
      = (Concurrency.initTrace 2).dq := by
  have h := C3_concurrency_bound 2 4 7
    [Concurrency.SlotEvent.acquire 1, Concurrency.SlotEvent.acquire 2,
      Concurrency.SlotEvent.acquire 3, Concurrency.SlotEvent.release]
    ⟨2, 2, []⟩ (Concurrency.initTrace 2) (by decide)
  exact ⟨h.1, h.2.2.2.1, h.2.2.2.2⟩

namespace DistLock

/-- After deleting a key, looking it up misses. -/
theorem lockGet_lockDel (st : LockStore) (k : String) :
    lockGet (lockDel st k) k = none := by
  induction st with
  | nil => rfl
  | cons p rest ih =>
    by_cases h : p.1 == k
    · simpa [lockDel, List.filter_cons, h] using ih
    · simpa [lockDel, lockGet, List.filter_cons, List.find?, h] using ih

end DistLock

/-- C4.  `releaseLock` returns `true` exactly when the value stored at the
lock key equals the caller's token, in which case the entry is deleted;
on a mismatch or a missing key it returns `false` and leaves the store
unchanged; and a throwing backend call is caught, surfacing as `false`
(release) or `none` (acquire) with the store untouched. -/
theorem C4_lock_release (st : DistLock.LockStore) (resource tok : String) :
    ((DistLock.releaseLock st resource tok false).1 = true
      ↔ DistLock.lockGet st (DistLock.lockKey resource) = some tok) ∧
    (DistLock.lockGet st (DistLock.lockKey resource) = some tok →
      (DistLock.releaseLock st resource tok false).2
          = DistLock.lockDel st (DistLock.lockKey resource) ∧
        DistLock.lockGet (DistLock.releaseLock st resource tok false).2
          (DistLock.lockKey resource) = none) ∧
    (DistLock.lockGet st (DistLock.lockKey resource) ≠ some tok →
      DistLock.releaseLock st resource tok false = (false, st)) ∧
    DistLock.releaseLock st resource tok true = (false, st) ∧
    DistLock.acquireLock st resource tok true = (none, st) := by
  refine ⟨?_, ?_, ?_, rfl, rfl⟩
  · cases hget : DistLock.lockGet st (DistLock.lockKey resource) with
    | none => simp [DistLock.releaseLock, DistLock.evalReleaseScript, hget]
    | some v =>
      by_cases hv : v = tok
      · subst hv
        simp [DistLock.releaseLock, DistLock.evalReleaseScript, hget]
      · simp [DistLock.releaseLock, DistLock.evalReleaseScript, hget, hv]
  · intro hget
    simp [DistLock.releaseLock, DistLock.evalReleaseScript, hget,
      DistLock.lockGet_lockDel]
  · intro hget
    cases h : DistLock.lockGet st (DistLock.lockKey resource) with
    | none => simp [DistLock.releaseLock, DistLock.evalReleaseScript, h]
    | some v =>
      have hv : v ≠ tok := by
        intro hvt
        exact hget (by rw [h, hvt])
      simp [DistLock.releaseLock, DistLock.evalReleaseScript, h, hv]

/-- C4 (witness): concrete instances of `C4_lock_release` on a store
holding the lock for resource `R` with token `t1`. -/
theorem C4_lock_release_witness :
    (DistLock.releaseLock [(DistLock.lockKey "R", "t1")] "R" "t1" false).1 = true ∧
    DistLock.lockGet (DistLock.releaseLock [(DistLock.lockKey "R", "t1")] "R" "t1" false).2
      (DistLock.lockKey "R") = none ∧
    DistLock.releaseLock [(DistLock.lockKey "R", "t1")] "R" "t2" false
      = (false, [(DistLock.lockKey "R", "t1")]) ∧
    DistLock.acquireLock [(DistLock.lockKey "R", "t1")] "R" "t3" true
      = (none, [(DistLock.lockKey "R", "t1")]) := by
  refine ⟨(C4_lock_release [(DistLock.lockKey "R", "t1")] "R" "t1").1.mpr (by decide),
    ((C4_lock_release [(DistLock.lockKey "R", "t1")] "R" "t1").2.1 (by decide)).2,
    (C4_lock_release [(DistLock.lockKey "R", "t1")] "R" "t2").2.2.1 (by decide),
    (C4_lock_release [(DistLock.lockKey "R", "t1")] "R" "t3").2.2.2.2⟩

namespace Hashing

/-- The lookup loop is `List.find?` with the at-least-target predicate. -/
theorem scanRing_eq_find (target : Nat) (l : List RingEntry) :
    scanRing target l = l.find? (fun e => decide (target ≤ e.hash)) := by
  induction l with
  | nil => rfl
  | cons e rest ih =>
    by_cases h : target ≤ e.hash <;> simp [scanRing, List.find?_cons, h, ih]

/-- The pre-sort ring has exactly `virtualNodes` points per physical node. -/
theorem ringPoints_length (h : String → Nat) (nodes : List String) :
    (ringPoints h nodes).length = virtualNodes * nodes.length := by
  induction nodes with
  | nil => simp [ringPoints]
  | cons n rest ih =>
    simp only [ringPoints, List.flatMap_cons, List.length_append, List.length_map,
      List.length_range, List.length_cons] at *
    rw [ih]
    ring

/-- Every pre-sort ring entry carries one of the supplied nodes. -/
theorem ringPoints_node_mem (h : String → Nat) (nodes : List String) (e : RingEntry)
    (he : e ∈ ringPoints h nodes) : e.node ∈ nodes := by
  simp only [ringPoints, List.mem_flatMap, List.mem_map, List.mem_range] at he
  obtain ⟨n, hn, i, _, rfl⟩ := he
  exact hn

/-- The built ring is a permutation of the virtual points. -/
theorem buildRing_perm (h : String → Nat) (nodes : List String) :
    (buildRing h nodes).Perm (ringPoints h nodes) :=
  List.mergeSort_perm (ringPoints h nodes) ringLE

/-- The built ring is sorted ascending by hash. -/
theorem buildRing_sorted (h : String → Nat) (nodes : List String) :
    (buildRing h nodes).Pairwise (fun a b => a.hash ≤ b.hash) := by
  have hs := @List.sorted_mergeSort RingEntry ringLE
    (by intro a b c hab hbc; simp only [ringLE, decide_eq_true_eq] at *; omega)
    (by intro a b; simp only [ringLE]; rcases Nat.le_total a.hash b.hash with h1 | h1 <;>
      simp [h1])
    (ringPoints h nodes)
  exact hs.imp (by intro a b hab; simpa [ringLE] using hab)

/-- The built ring has exactly `virtualNodes * |nodes|` entries. -/
theorem buildRing_length (h : String → Nat) (nodes : List String) :
    (buildRing h nodes).length = virtualNodes * nodes.length := by
  rw [(buildRing_perm h nodes).length_eq, ringPoints_length]

/-- Every entry of the built ring carries one of the supplied nodes. -/
theorem buildRing_node_mem (h : String → Nat) (nodes : List String) (e : RingEntry)
    (he : e ∈ buildRing h nodes) : e.node ∈ nodes :=
  ringPoints_node_mem h nodes e ((buildRing_perm h nodes).mem_iff.mp he)

/-- Over the ring of a non-empty node list, the lookup always returns some
supplied node. -/
theorem getNodeForRing_mem (h : String → Nat) (nodes : List String) (target : Nat)
    (hne : nodes ≠ []) :
    ∃ n, getNodeForRing (buildRing h nodes) target = some n ∧ n ∈ nodes := by
  have hlen : (buildRing h nodes).length ≠ 0 := by
    rw [buildRing_length]
    have h0 : nodes.length ≠ 0 := fun hzero => hne (List.length_eq_zero.mp hzero)
    simp only [virtualNodes]
    omega
  unfold getNodeForRing
  cases hscan : scanRing target (buildRing h nodes) with
  | some e =>
    refine ⟨e.node, rfl, ?_⟩
    apply buildRing_node_mem h nodes e
    rw [scanRing_eq_find] at hscan
    exact List.mem_of_find?_eq_some hscan
  | none =>
    cases hring : buildRing h nodes with
    | nil => exact absurd (by simp [hring]) hlen
    | cons e0 rest =>
      refine ⟨e0.node, by simp, ?_⟩
      exact buildRing_node_mem h nodes e0 (by rw [hring]; exact List.mem_cons_self e0 rest)

end Hashing

/-- C5.  The ring is built by placing exactly 160 virtual points per
physical node at `hash(node + ":" + i)` for `i` in `[0, 160)` (the sorted
ring is a permutation of those points, with `160 * |nodes|` entries) and
sorting ascending by hash; `getNodeForKey` returns the node of the first
ring entry with hash at least `hash(key)`, wrapping to the first ring entry
when none qualifies; and the lookup is a pure function of key and ring —
a repeated call on an unchanged ring returns the same node. -/
theorem C5_hash_ring (h : String → Nat) (nodes : List String) (key key2 : String)
    (hsame : key2 = key) :
    (Hashing.buildRing h nodes).Pairwise (fun a b => a.hash ≤ b.hash) ∧
    (Hashing.buildRing h nodes).Perm (Hashing.ringPoints h nodes) ∧
    (Hashing.buildRing h nodes).length = Hashing.virtualNodes * nodes.length ∧
    Hashing.virtualNodes = 160 ∧
    Hashing.getNodeForKey h nodes key
      = (match (Hashing.buildRing h nodes).find? (fun e => decide (h key ≤ e.hash)) with
          | some e => some e.node
          | none => (Hashing.buildRing h nodes).head?.map (fun e => e.node)) ∧
    Hashing.getNodeForKey h nodes key2 = Hashing.getNodeForKey h nodes key := by
  refine ⟨Hashing.buildRing_sorted h nodes, Hashing.buildRing_perm h nodes,
    Hashing.buildRing_length h nodes, rfl, ?_, by rw [hsame]⟩
  unfold Hashing.getNodeForKey Hashing.getNodeForRing
  rw [Hashing.scanRing_eq_find]

/-- C5 (witness): concrete instance of `C5_hash_ring` with a length-valued
hash, one node and one key. -/
theorem C5_hash_ring_witness :
    (Hashing.buildRing (fun s => s.length) ["n1"]).Pairwise (fun a b => a.hash ≤ b.hash) ∧
    (Hashing.buildRing (fun s => s.length) ["n1"]).length
      = Hashing.virtualNodes * (["n1"] : List String).length ∧
    Hashing.getNodeForKey (fun s => s.length) ["n1"] "k"
      = Hashing.getNodeForKey (fun s => s.length) ["n1"] "k" := by
  have h := C5_hash_ring (fun s => s.length) ["n1"] "k" "k" rfl
  exact ⟨h.1, h.2.2.1, h.2.2.2.2.2⟩

/-- C10.  Built from a non-empty node list, `getNodeForKey` returns one of
the supplied nodes for every key.  Built from the empty node list — which
`rebalanceKeys(keys, [])` installs — the ring is empty, and every
`getNodeForKey` / `getNodeForPartition` call hits the undefined `ring[0]`
entry (modelled as `none`), as does the lookup `rebalanceKeys` itself runs
for each key being redistributed. -/
theorem C10_empty_ring (h : String → Nat) (nodes : List String) (key : String)
    (p : Nat) (keys : List String) (hne : nodes ≠ []) :
    (∃ n, Hashing.getNodeForKey h nodes key = some n ∧ n ∈ nodes) ∧
    Hashing.buildRing h [] = [] ∧
    Hashing.getNodeForKey h [] key = none ∧
    Hashing.getNodeForPartition h [] p = none ∧
    (Hashing.rebalanceKeys h keys []).2 = keys.map (fun k => (k, (none : Option String))) := by
  have hempty : Hashing.buildRing h [] = [] := by
    have := Hashing.buildRing_length h []
    simpa using List.length_eq_zero.mp (by simpa using this)
  have hkey : ∀ k : String, Hashing.getNodeForKey h [] k = none := by
    intro k
    simp [Hashing.getNodeForKey, hempty, Hashing.getNodeForRing, Hashing.scanRing]
  refine ⟨Hashing.getNodeForRing_mem h nodes (h key) hne, hempty, hkey key, ?_, ?_⟩
  · simp [Hashing.getNodeForPartition, hempty, Hashing.getNodeForRing, Hashing.scanRing]
  · simp [Hashing.rebalanceKeys, Hashing.distributeLookup, hkey]

/-- C10 (witness): concrete instance of `C10_empty_ring` with one node and
one redistributed key. -/
theorem C10_empty_ring_witness :
    (∃ n, Hashing.getNodeForKey (fun s => s.length) ["n1"] "k" = some n ∧ n ∈ ["n1"]) ∧
    Hashing.getNodeForKey (fun s => s.length) [] "k" = none ∧
    (Hashing.rebalanceKeys (fun s => s.length) ["a"] []).2 = [("a", (none : Option String))] := by
  have h := C10_empty_ring (fun s => s.length) ["n1"] "k" 0 ["a"] (by simp)
  exact ⟨h.1, h.2.2.1, by simpa using h.2.2.2.2⟩

/-- C6 (counterexample).  The claim says get/set route to the distributed
backend iff the connection manager is healthy at the moment of the call.
In the code the routing flag is `isRedisAvailable`, fixed at startup: with
the flag false and a currently healthy manager, a `get` is served from the
local map (here returning the local value `v`), not from the distributed
backend (which would return `w`): the code's choice differs from the
spec's choice for `healthyNow = true`. -/
theorem C6_backend_choice_cex :
    CacheSvc.cacheGetBackend ⟨false, []⟩ = CacheSvc.Backend.memory ∧
    CacheSvc.backendSpecChoice true = CacheSvc.Backend.redis ∧
    CacheSvc.cacheGetBackend ⟨false, []⟩ ≠ CacheSvc.backendSpecChoice true ∧
    CacheSvc.cacheGet ⟨false, [("taskflow:cache:k", ⟨"v", 10⟩)]⟩
        (fun _ => Except.ok (some "w")) 0 "k"
      = Except.ok (some "v", ⟨false, [("taskflow:cache:k", ⟨"v", 10⟩)]⟩) := by
  exact ⟨rfl, rfl, by decide, rfl⟩

/-- C6 (amended).  The backend choice is made per invocation from the
`isRedisAvailable` flag fixed at startup, not from the connection manager's
current health: with the flag set, `get`'s value is independent of the
local map; with it clear, `get` is independent of the distributed backend
entirely; a failing distributed read yields `null` with no mid-call
fallback to the local map; and `set` additionally consults the circuit
breaker at call time — with the breaker open it writes the local map even
when the flag is set. -/
theorem C6_backend_choice (mem mem2 : CacheSvc.Mem)
    (rg rg2 : String → Except String (Option String)) (rs : String → Except String Unit)
    (now ttl : Nat) (key value e0 : String) (hkey : key ≠ "") :
    ((CacheSvc.cacheGet ⟨true, mem⟩ rg now key).map (fun r => r.1))
      = ((CacheSvc.cacheGet ⟨true, mem2⟩ rg now key).map (fun r => r.1)) ∧
    CacheSvc.cacheGet ⟨false, mem⟩ rg now key = CacheSvc.cacheGet ⟨false, mem⟩ rg2 now key ∧
    CacheSvc.cacheGet ⟨true, mem⟩ (fun _ => Except.error e0) now key
      = Except.ok (none, ⟨true, mem⟩) ∧
    CacheSvc.cacheSet ⟨true, mem⟩ true rs now ttl key value
      = Except.ok ⟨true, CacheSvc.memSet mem ("taskflow:cache:" ++ CacheSvc.sanitizeKey key)
          ⟨value, now + ttl * 1000⟩⟩ := by
  have hpk : CacheSvc.getPrefixedKey key
      = Except.ok ("taskflow:cache:" ++ CacheSvc.sanitizeKey key) := by
    simp [CacheSvc.getPrefixedKey, hkey]
  refine ⟨?_, ?_, ?_, ?_⟩
  · cases hr : rg ("taskflow:cache:" ++ CacheSvc.sanitizeKey key) <;>
      simp [CacheSvc.cacheGet, hpk, hr, Except.map]
  · simp [CacheSvc.cacheGet, hpk]
  · simp [CacheSvc.cacheGet, hpk]
  · simp [CacheSvc.cacheSet, hpk]

/-- C6 (witness): concrete instances of `C6_backend_choice`. -/
theorem C6_backend_choice_witness :
    CacheSvc.cacheGet ⟨true, []⟩ (fun _ => Except.error "err") 0 "k"
      = Except.ok (none, ⟨true, []⟩) ∧
    CacheSvc.cacheSet ⟨true, []⟩ true (fun _ => Except.ok ()) 0 1 "k" "v"
      = Except.ok ⟨true, CacheSvc.memSet [] ("taskflow:cache:" ++ CacheSvc.sanitizeKey "k")
          ⟨"v", 0 + 1 * 1000⟩⟩ := by
  have h := C6_backend_choice [] [("taskflow:cache:a", ⟨"x", 5⟩)] (fun _ => Except.ok none)
    (fun _ => Except.error "boom") (fun _ => Except.ok ()) 0 1 "k" "v" "err" (by decide)
  exact ⟨h.2.2.1, h.2.2.2⟩

namespace CacheSvc

/-- Prefixing a key list containing the empty string fails with the
invalid-key error. -/
theorem prefixAll_error (keys : List String) (hbad : "" ∈ keys) :
    prefixAll keys = Except.error "Invalid cache key" := by
  induction keys with
  | nil => simp at hbad
  | cons k rest ih =>
    rcases List.mem_cons.mp hbad with h | h
    · rw [← h]
      rfl
    · by_cases hk : k = ""
      · subst hk
        rfl
      · have hpk : getPrefixedKey k = Except.ok ("taskflow:cache:" ++ sanitizeKey k) := by
          simp [getPrefixedKey, hk]
        simp [prefixAll, hpk, ih h]

end CacheSvc

/-- C9 (counterexample).  The claim says `get` (like all namespacing
operations) throws the `Invalid cache key` error for a malformed key.  In
the code the public `get` catches it and returns `null`: at the empty key
it returns `Except.ok` — no error reaches the caller. -/
theorem C9_invalid_key_cex :
    CacheSvc.cacheGet ⟨false, []⟩ (fun _ => Except.ok none) 0 ""
      = Except.ok (none, ⟨false, []⟩) ∧
    (CacheSvc.cacheGet ⟨false, []⟩ (fun _ => Except.ok none) 0 "").isOk = true := by
  exact ⟨rfl, rfl⟩

/-- C9 (amended).  `getPrefixedKey` does reject a malformed (empty) key
with the `Invalid cache key` error, but the public operations catch it:
`get` returns `null`, `delete` returns `false`, `mget` returns an all-null
list, `mset` never propagates any error (its Redis branch does not even
prefix the keys); only `set` re-raises the error — from its catch block's
second `getPrefixedKey` call — and only when the startup flag
`isRedisAvailable` is set. -/
theorem C9_invalid_key (st : CacheSvc.CacheState)
    (rg : String → Except String (Option String)) (rd : String → Except String Bool)
    (rmg : List String → Except String (List (Option String)))
    (rms : List (String × String) → Except String Unit)
    (rs : String → Except String Unit) (cbOpen : Bool) (now ttl : Nat) (v : String)
    (keys : List String) (kvs : List (String × String)) (hbad : "" ∈ keys) :
    CacheSvc.getPrefixedKey "" = Except.error "Invalid cache key" ∧
    CacheSvc.cacheGet st rg now "" = Except.ok (none, st) ∧
    CacheSvc.cacheDelete st rd "" = Except.ok (false, st) ∧
    CacheSvc.cacheMget st rmg now keys = Except.ok (keys.map (fun _ => none), st) ∧
    (CacheSvc.cacheMset st rms now ttl kvs).isOk = true ∧
    (st.isRedisAvailable = false →
      CacheSvc.cacheMset st rms now ttl [("", v)] = Except.ok st) ∧
    CacheSvc.cacheSet st cbOpen rs now ttl "" v
      = (if st.isRedisAvailable then Except.error "Invalid cache key"
          else Except.ok st) := by
  refine ⟨rfl, ?_, ?_, ?_, ?_, ?_, ?_⟩
  · simp [CacheSvc.cacheGet, CacheSvc.getPrefixedKey]
  · simp [CacheSvc.cacheDelete, CacheSvc.getPrefixedKey]
  · simp [CacheSvc.cacheMget, CacheSvc.prefixAll_error keys hbad]
  · simp only [CacheSvc.cacheMset]
    split <;> rfl
  · intro hred
    simp [CacheSvc.cacheMset, hred, CacheSvc.setMemoryList, CacheSvc.getPrefixedKey]
  · cases hflag : st.isRedisAvailable <;>
      simp [CacheSvc.cacheSet, CacheSvc.getPrefixedKey, hflag]

/-- C9 (witness): concrete instances of `C9_invalid_key`. -/
theorem C9_invalid_key_witness :
    CacheSvc.cacheGet ⟨true, []⟩ (fun _ => Except.ok none) 0 "" = Except.ok (none, ⟨true, []⟩) ∧
    CacheSvc.cacheMget ⟨true, []⟩ (fun _ => Except.ok []) 0 ["a", ""]
      = Except.ok ([none, none], ⟨true, []⟩) ∧
    CacheSvc.cacheSet ⟨true, []⟩ false (fun _ => Except.ok ()) 0 1 "" "v"
      = Except.error "Invalid cache key" := by
  have h := C9_invalid_key ⟨true, []⟩ (fun _ => Except.ok none) (fun _ => Except.ok false)
    (fun _ => Except.ok []) (fun _ => Except.ok ()) (fun _ => Except.ok ()) false 0 1 "v"
    ["a", ""] [] (by decide)
  exact ⟨h.2.1, by simpa using h.2.2.2.1, by simpa using h.2.2.2.2.2.2⟩

/-- C7 (counterexample).  With all five in-window calls and a sixth call
arriving exactly at the window's `resetTime` (still the same window for the
code, whose expiry test is strict), the sixth call is denied but its
retry-after value is 0, not strictly greater than 0 as claimed. -/
theorem C7_window_cex :
    (RateLimitSvc.sixCalls [] "k" 0 0 0 0 0 1000).map (fun r => (r.allowed, r.retryAfter))
      = [(true, none), (true, none), (true, none), (true, none), (true, none),
          (false, some 0)] := by
  decide

/-- C7 (amended).  With `limit = 5`, `windowMs = 1000` and a fresh key,
five in-window checks all return `allowed = true` with strictly decreasing
`remaining` 4, 3, 2, 1, 0 and no retry-after field; the sixth in-window
check returns `allowed = false`, `current = 6`, `remaining = 0` and
retry-after `ceil((resetTime - t6) / 1000)` — strictly positive whenever
the call arrives strictly before `resetTime`, and 0 at exactly
`resetTime`.  In every result of the memory path and of the Redis-path
result constructor, the retry-after field is present iff `allowed` is
false. -/
theorem C7_window (store : RateLimitSvc.MemStore) (key : String)
    (t1 t2 t3 t4 t5 t6 : Nat)
    (hfresh : RateLimitSvc.storeGet store key = none)
    (h2 : t2 ≤ t1 + 1000) (h3 : t3 ≤ t1 + 1000) (h4 : t4 ≤ t1 + 1000)
    (h5 : t5 ≤ t1 + 1000) (h6 : t6 ≤ t1 + 1000) :
    RateLimitSvc.sixCalls store key t1 t2 t3 t4 t5 t6
      = [⟨true, 5, 1, 4, t1 + 1000, none⟩,
          ⟨true, 5, 2, 3, t1 + 1000, none⟩,
          ⟨true, 5, 3, 2, t1 + 1000, none⟩,
          ⟨true, 5, 4, 1, t1 + 1000, none⟩,
          ⟨true, 5, 5, 0, t1 + 1000, none⟩,
          ⟨false, 5, 6, 0, t1 + 1000,
            some (RateLimitSvc.ceilDiv1000 (t1 + 1000 - t6))⟩] ∧
    (t6 < t1 + 1000 → 0 < RateLimitSvc.ceilDiv1000 (t1 + 1000 - t6)) ∧
    (∀ (store2 : RateLimitSvc.MemStore) (key2 : String)
        (opts2 : RateLimitSvc.RateLimitOptions) (now2 : Nat),
      ((RateLimitSvc.checkMemoryRateLimit store2 key2 opts2 now2).1.retryAfter).isSome
        = !(RateLimitSvc.checkMemoryRateLimit store2 key2 opts2 now2).1.allowed) ∧
    (∀ (opts2 : RateLimitSvc.RateLimitOptions) (c t n : Nat),
      ((RateLimitSvc.checkRedisRateLimit opts2 c t n).retryAfter).isSome
        = !(RateLimitSvc.checkRedisRateLimit opts2 c t n).allowed) := by
  have hs1 : RateLimitSvc.checkMemoryRateLimit store key ⟨5, 1000⟩ t1
      = (⟨true, 5, 1, 4, t1 + 1000, none⟩,
        RateLimitSvc.storeSet store key ⟨1, t1 + 1000, 5⟩) := by
    rw [RateLimitSvc.checkMemory_fresh store key ⟨5, 1000⟩ t1 hfresh]
    norm_num
  have step : ∀ (c now : Nat), now ≤ t1 + 1000 →
      RateLimitSvc.checkMemoryRateLimit
          (RateLimitSvc.storeSet store key ⟨c, t1 + 1000, 5⟩) key ⟨5, 1000⟩ now
        = (⟨decide (c + 1 ≤ 5), 5, c + 1, max 0 ((5 : Int) - ((c + 1 : Nat) : Int)),
            t1 + 1000,
            if decide (c + 1 ≤ 5) then none
            else some (RateLimitSvc.ceilDiv1000 (t1 + 1000 - now))⟩,
          RateLimitSvc.storeSet store key ⟨c + 1, t1 + 1000, 5⟩) := by
    intro c now hnow
    rw [RateLimitSvc.checkMemory_hit _ key ⟨5, 1000⟩ now ⟨c, t1 + 1000, 5⟩
        (RateLimitSvc.storeGet_storeSet_self store key ⟨c, t1 + 1000, 5⟩)
        (show ¬ now > t1 + 1000 by omega),
      RateLimitSvc.storeSet_storeSet]
    dsimp only
    norm_num
  have st2 := step 1 t2 h2
  have st3 := step 2 t3 h3
  have st4 := step 3 t4 h4
  have st5 := step 4 t5 h5
  have st6 := step 5 t6 h6
  norm_num at st2 st3 st4 st5 st6
  refine ⟨?_, ?_, ?_, ?_⟩
  · simp only [RateLimitSvc.sixCalls]
    rw [hs1]
    dsimp only
    rw [st2]
    dsimp only
    rw [st3]
    dsimp only
    rw [st4]
    dsimp only
    rw [st5]
    dsimp only
    rw [st6]
  · intro hlt
    simp only [RateLimitSvc.ceilDiv1000]
    omega
  · intro store2 key2 opts2 now2
    cases hget : RateLimitSvc.storeGet store2 key2 with
    | none => simp [RateLimitSvc.checkMemoryRateLimit, hget]
    | some cur =>
      by_cases hexp : now2 > cur.resetTime
      · simp [RateLimitSvc.checkMemoryRateLimit, hget, hexp]
      · by_cases hall : cur.count + 1 ≤ opts2.limit <;>
          simp [RateLimitSvc.checkMemoryRateLimit, hget, hexp, hall]
  · intro opts2 c t n
    by_cases hall : c ≤ opts2.limit <;>
      simp [RateLimitSvc.checkRedisRateLimit, hall, Nat.lt_iff_add_one_le] <;>
      omega

/-- C7 (witness): concrete instance of `C7_window` with all calls at time 0
and the sixth at 500, strictly inside the window. -/
theorem C7_window_witness :
    RateLimitSvc.sixCalls [] "k" 0 0 0 0 0 500
      = [⟨true, 5, 1, 4, 0 + 1000, none⟩,
          ⟨true, 5, 2, 3, 0 + 1000, none⟩,
          ⟨true, 5, 3, 2, 0 + 1000, none⟩,
          ⟨true, 5, 4, 1, 0 + 1000, none⟩,
          ⟨true, 5, 5, 0, 0 + 1000, none⟩,
          ⟨false, 5, 6, 0, 0 + 1000,
            some (RateLimitSvc.ceilDiv1000 (0 + 1000 - 500))⟩] ∧
    0 < RateLimitSvc.ceilDiv1000 (0 + 1000 - 500) := by
  have h := C7_window [] "k" 0 0 0 0 0 500 rfl (by omega) (by omega) (by omega)
    (by omega) (by omega)
  exact ⟨h.1, h.2.1 (by omega)⟩

/-- C8 (witness): concrete instance of `C8_breaker_invariant` on a
connect-error-close trace from the startup state. -/
theorem C8_breaker_invariant_witness :
    RedisConn.cbInv (RedisConn.connRun ⟨false, false, 0⟩
      [RedisConn.ConnEvent.connect, RedisConn.ConnEvent.errorEvt,
        RedisConn.ConnEvent.close, RedisConn.ConnEvent.healthOk]) = true :=
  C8_breaker_invariant ⟨false, false, 0⟩
    [RedisConn.ConnEvent.connect, RedisConn.ConnEvent.errorEvt,
      RedisConn.ConnEvent.close, RedisConn.ConnEvent.healthOk]
    (by decide) (by decide)
